import Mathlib

/-!
Verification of the clipboard-history plugin's capture/dedup/evict/persist
pipeline, embedded shallowly from the repository's source.

The embedding follows `src/unnamed/part_003` (the current revision of the
`Clipboard/index.vue` component) for the in-memory history store and the
renderer polling loop, and `src/unnamed/part_001` / `src/unnamed/part_002`
(the preload scripts) for the background clipboard watcher and the
document-store persistence layer.  Timestamps (`Date.now()`) are modelled
as `Nat` and passed explicitly; freshly generated ids (`uuid()`) are
parameters.
-/

/-- Clipboard payload kind: the `ClipType = 'text' | 'image'` union. -/
inductive ClipType where
  | text
  | image
deriving DecidableEq

/-- One history record: the `ClipEntry` interface of `Clipboard/index.vue`.
`favoriteNote` and `favoritedAt` are optional fields (`?:` in the source),
represented with `Option`; a JS `undefined` is `none`. -/
structure ClipEntry where
  id : String
  type : ClipType
  content : String
  createdAt : Nat
  updatedAt : Nat
  pinned : Bool
  favorited : Bool
  favoriteNote : Option String := none
  favoritedAt : Option Nat := none
deriving DecidableEq

/-- The constant `MAX_ITEMS = 200`. -/
def MAX_ITEMS : Nat := 200

/-- Tier predicate `(item) => item.pinned`, the first filter of `compactItems`. -/
def pinnedB (item : ClipEntry) : Bool := item.pinned

/-- Tier predicate `(item) => item.favorited && !item.pinned`, the second
filter of `compactItems`. -/
def favNB (item : ClipEntry) : Bool := item.favorited && !item.pinned

/-- Tier predicate `(item) => !item.pinned && !item.favorited`, the third
filter of `compactItems`. -/
def plainB (item : ClipEntry) : Bool := !item.pinned && !item.favorited

/-- Function `compactItems` from `src/unnamed/part_003` lines 1135-1146 (identical to
`src/unnamed/part_002` lines 195-204): split the list into the pinned /
favorited-not-pinned / plain tiers (each `filter` preserves list order),
then keep all pinned records, the first `afterPinnedQuota` favorited ones
and the first `afterFavoriteQuota` plain ones.  `Math.max(0, a - b)` on
numbers is exactly truncated `Nat` subtraction. -/
def compactItems (list : List ClipEntry) : List ClipEntry :=
  let pinned := list.filter pinnedB
  let favorited := list.filter favNB
  let others := list.filter plainB
  let afterPinnedQuota := MAX_ITEMS - pinned.length
  let afterFavoriteQuota := afterPinnedQuota - favorited.length
  let keptFavorites := favorited.take afterPinnedQuota
  let keptOthers := others.take afterFavoriteQuota
  pinned ++ keptFavorites ++ keptOthers

/-- A clipboard payload as produced by `readClipboard`: `{ type, content }`. -/
structure Payload where
  type : ClipType
  content : String
deriving DecidableEq

/-- The dedup predicate of `addOrUpdateItem`'s `findIndex`:
`item.type === entry.type && item.content === entry.content`. -/
def matchesB (entry : Payload) (item : ClipEntry) : Bool :=
  decide (item.type = entry.type ∧ item.content = entry.content)

/-- Combined `findIndex` + `splice(existingIndex, 1)`: find the first element
satisfying `p` and return it together with the list with that one occurrence
removed; `none` when `findIndex` returns `-1`. -/
def extractFirst (p : ClipEntry → Bool) : List ClipEntry → Option (ClipEntry × List ClipEntry)
  | [] => none
  | x :: xs =>
    if p x then some (x, xs)
    else
      match extractFirst p xs with
      | none => none
      | some (y, rest) => some (y, x :: rest)

/-- Function `addOrUpdateItem` from `src/unnamed/part_003` lines 1148-1178, with
`Date.now()` as `now` and `uuid()` as `freshId`.  Returns the new list and
the `added` flag.  An existing `(type, content)` match is spliced out,
given `updatedAt := now`, and `unshift`ed to the head; otherwise a fresh
plain record is `unshift`ed.  Both branches end with `compactItems`. -/
def addOrUpdateItem (now : Nat) (entry : Payload) (freshId : String)
    (items : List ClipEntry) : List ClipEntry × Bool :=
  match extractFirst (matchesB entry) items with
  | some (existing, rest) =>
    (compactItems ({ existing with updatedAt := now } :: rest), false)
  | none =>
    (compactItems ({ id := freshId, type := entry.type, content := entry.content,
                     createdAt := now, updatedAt := now,
                     pinned := false, favorited := false } :: items), true)

/-- The `splice(idx, 1, next)` step: replace the first element whose `id` equals
`next.id`, keeping its list position. -/
def replaceFirst (next : ClipEntry) : List ClipEntry → List ClipEntry
  | [] => []
  | x :: xs => if x.id = next.id then next :: xs else x :: replaceFirst next xs

/-- Function `replaceItem` from `src/unnamed/part_003` lines 1474-1481: if a record
with `next.id` exists, replace it in place and run `compactItems`;
otherwise the list is untouched. -/
def replaceItem (next : ClipEntry) (items : List ClipEntry) : List ClipEntry :=
  if items.any (fun x => decide (x.id = next.id)) then
    compactItems (replaceFirst next items)
  else items

/-- The record produced by `togglePin` (`src/unnamed/part_003` lines
1414-1417): flip `pinned` and bump `updatedAt` to `Date.now()`. -/
def togglePin (now : Nat) (item : ClipEntry) : ClipEntry :=
  { item with pinned := !item.pinned, updatedAt := now }

/-- The record produced by `toggleFavorite` (`src/unnamed/part_003` lines
1419-1427): flip `favorited`; `favoritedAt` becomes `Date.now()` when
favoriting and `undefined` when unfavoriting.  No other field changes. -/
def toggleFavorite (now : Nat) (item : ClipEntry) : ClipEntry :=
  let isFav := !item.favorited
  { item with favorited := isFav, favoritedAt := if isFav then some now else none }

/-! ### Basic facts about `compactItems` -/

theorem compactItems_length (l : List ClipEntry) :
    (compactItems l).length =
      (l.filter pinnedB).length
        + min (MAX_ITEMS - (l.filter pinnedB).length) (l.filter favNB).length
        + min ((MAX_ITEMS - (l.filter pinnedB).length) - (l.filter favNB).length)
            (l.filter plainB).length := by
  simp [compactItems, List.length_take]
  omega

theorem compactItems_length_le (l : List ClipEntry)
    (h : (l.filter pinnedB).length ≤ MAX_ITEMS) :
    (compactItems l).length ≤ MAX_ITEMS := by
  rw [compactItems_length]
  omega

theorem countP_pinnedB_eq (l : List ClipEntry) :
    l.countP pinnedB = (l.filter pinnedB).length :=
  List.countP_eq_length_filter pinnedB l

theorem replaceFirst_length (next : ClipEntry) (l : List ClipEntry) :
    (replaceFirst next l).length = l.length := by
  induction l with
  | nil => rfl
  | cons x xs ih =>
    simp only [replaceFirst]
    split <;> simp [ih]

/-! ### Facts about `extractFirst` -/

theorem extractFirst_countP {p : ClipEntry → Bool} {l : List ClipEntry}
    {x : ClipEntry} {rest : List ClipEntry}
    (h : extractFirst p l = some (x, rest)) (q : ClipEntry → Bool) :
    l.countP q = (x :: rest).countP q := by
  induction l generalizing rest with
  | nil => simp [extractFirst] at h
  | cons a as ih =>
    simp only [extractFirst] at h
    split at h
    · cases h
      rfl
    · cases hx : extractFirst p as with
      | none => simp [hx] at h
      | some pr =>
        obtain ⟨y, r⟩ := pr
        rw [hx] at h
        cases h
        have := ih hx
        simp only [List.countP_cons] at this ⊢
        omega

theorem extractFirst_prop {p : ClipEntry → Bool} {l : List ClipEntry}
    {x : ClipEntry} {rest : List ClipEntry}
    (h : extractFirst p l = some (x, rest)) : p x = true := by
  induction l generalizing rest with
  | nil => simp [extractFirst] at h
  | cons a as ih =>
    simp only [extractFirst] at h
    split at h
    · cases h
      assumption
    · cases hx : extractFirst p as with
      | none => simp [hx] at h
      | some pr =>
        obtain ⟨y, r⟩ := pr
        rw [hx] at h
        cases h
        exact ih hx

theorem extractFirst_eq_none_iff {p : ClipEntry → Bool} {l : List ClipEntry} :
    extractFirst p l = none ↔ l.countP p = 0 := by
  induction l with
  | nil => simp [extractFirst]
  | cons a as ih =>
    simp only [extractFirst, List.countP_cons]
    by_cases hp : p a
    · simp [hp]
    · simp only [hp, if_neg, Bool.false_eq_true, if_false, add_zero]
      rw [← ih]
      cases hx : extractFirst p as with
      | none => simp
      | some pr => simp

/-- C1 — the cap invariant.  `compactItems` returns at most `MAX_ITEMS`
records whenever its input holds at most `MAX_ITEMS` pinned ones; hence
`addOrUpdateItem` and `replaceItem` (the mutations that invoke compact)
keep a collection that respected the cap within the cap. -/
theorem compact_cap_C1 :
    (∀ l : List ClipEntry, l.countP pinnedB ≤ MAX_ITEMS →
      (compactItems l).length ≤ MAX_ITEMS)
    ∧ (∀ (now : Nat) (e : Payload) (fid : String) (items : List ClipEntry),
        items.countP pinnedB ≤ MAX_ITEMS →
        ((addOrUpdateItem now e fid items).1).length ≤ MAX_ITEMS)
    ∧ (∀ (next : ClipEntry) (items : List ClipEntry),
        (replaceFirst next items).countP pinnedB ≤ MAX_ITEMS →
        items.length ≤ MAX_ITEMS →
        (replaceItem next items).length ≤ MAX_ITEMS) := by
  refine ⟨?_, ?_, ?_⟩
  · intro l h
    exact compactItems_length_le l (by rwa [countP_pinnedB_eq] at h)
  · intro now e fid items h
    cases hx : extractFirst (matchesB e) items with
    | some pr =>
      obtain ⟨x, rest⟩ := pr
      simp only [addOrUpdateItem, hx]
      apply compactItems_length_le
      rw [← countP_pinnedB_eq]
      have h2 := extractFirst_countP hx pinnedB
      have h3 : ({ x with updatedAt := now } :: rest).countP pinnedB
          = (x :: rest).countP pinnedB := by
        simp [List.countP_cons, pinnedB]
      rw [h3, ← h2]
      exact h
    | none =>
      simp only [addOrUpdateItem, hx]
      apply compactItems_length_le
      rw [← countP_pinnedB_eq, List.countP_cons]
      simp only [pinnedB, Bool.false_eq_true, if_false, add_zero]
      exact h
  · intro next items h hlen
    unfold replaceItem
    split
    · have := replaceFirst_length next items
      rw [countP_pinnedB_eq] at h
      exact compactItems_length_le _ h
    · exact hlen

/-- Witness for C1 at a concrete one-element pinned collection. -/
theorem compact_cap_C1_witness :
    (([⟨"a", ClipType.text, "x", 0, 0, true, false, none, none⟩] : List ClipEntry).countP pinnedB
        ≤ MAX_ITEMS)
    ∧ (compactItems [⟨"a", ClipType.text, "x", 0, 0, true, false, none, none⟩]).length
        ≤ MAX_ITEMS :=
  ⟨by decide, compact_cap_C1.1 _ (by decide)⟩

/-! ### Membership and counting facts about `compactItems` -/

theorem mem_take_cons {x : ClipEntry} (l : List ClipEntry) {n : Nat} (h : n ≠ 0) :
    x ∈ (x :: l).take n := by
  cases n with
  | zero => exact absurd rfl h
  | succ m => exact List.mem_cons_self x _

theorem mem_of_mem_compactItems {x : ClipEntry} {l : List ClipEntry}
    (h : x ∈ compactItems l) : x ∈ l := by
  simp only [compactItems, List.mem_append] at h
  rcases h with (h | h) | h
  · exact List.mem_of_mem_filter h
  · exact List.mem_of_mem_filter (List.mem_of_mem_take h)
  · exact List.mem_of_mem_filter (List.mem_of_mem_take h)

theorem countP_filter_tiers (q : ClipEntry → Bool) (l : List ClipEntry) :
    ((l.filter pinnedB).countP q + (l.filter favNB).countP q)
      + (l.filter plainB).countP q = l.countP q := by
  induction l with
  | nil => simp
  | cons a as ih =>
    by_cases hp : a.pinned <;> by_cases hf : a.favorited <;>
      simp only [List.filter_cons, List.countP_cons, pinnedB, favNB, plainB, hp, hf,
        Bool.not_true, Bool.not_false, Bool.true_and, Bool.false_and, Bool.and_true,
        Bool.and_false, Bool.and_self, if_true, if_false, Bool.false_eq_true,
        List.countP_cons] <;>
      omega

theorem compactItems_countP_le (q : ClipEntry → Bool) (l : List ClipEntry) :
    (compactItems l).countP q ≤ l.countP q := by
  have h1 := ((l.filter favNB).take_sublist (MAX_ITEMS - (l.filter pinnedB).length)).countP_le q
  have h2 := ((l.filter plainB).take_sublist
      ((MAX_ITEMS - (l.filter pinnedB).length) - (l.filter favNB).length)).countP_le q
  have h3 := countP_filter_tiers q l
  simp only [compactItems, List.countP_append]
  omega

/-- Survival of the freshly `unshift`ed head through `compactItems`: as long
as the pinned and favorited tiers do not already fill the cap, the head of
each tier's filter is within its quota. -/
theorem head_mem_compactItems (x : ClipEntry) (rest : List ClipEntry)
    (h : ((x :: rest).filter pinnedB).length + ((x :: rest).filter favNB).length < MAX_ITEMS) :
    x ∈ compactItems (x :: rest) := by
  simp only [compactItems, List.mem_append]
  by_cases hp : x.pinned
  · left; left
    simp [List.filter_cons, pinnedB, hp]
  · by_cases hf : x.favorited
    · left; right
      have hcons : (x :: rest).filter favNB = x :: rest.filter favNB := by
        simp [List.filter_cons, favNB, hp, hf]
      rw [hcons]
      exact mem_take_cons _ (by omega)
    · right
      have hcons : (x :: rest).filter plainB = x :: rest.filter plainB := by
        simp [List.filter_cons, plainB, hp, hf]
      rw [hcons]
      exact mem_take_cons _ (by omega)

/-- In a collection with no pinned records, the favorited and plain tiers
partition the whole list. -/
theorem nonPinned_tier_sum {l : List ClipEntry} (h : ∀ x ∈ l, x.pinned = false) :
    (l.filter favNB).length + (l.filter plainB).length = l.length := by
  induction l with
  | nil => simp
  | cons a as ih =>
    have ha : a.pinned = false := h a (List.mem_cons_self a as)
    have ih' := ih (fun x hx => h x (List.mem_cons_of_mem a hx))
    by_cases hf : a.favorited <;>
      simp only [List.filter_cons, favNB, plainB, ha, hf, Bool.not_false, Bool.true_and,
        Bool.and_true, Bool.and_false, Bool.not_true, Bool.false_and, if_true, if_false,
        Bool.false_eq_true, List.length_cons] <;>
      omega

/-- C2 — favorited records precede plain ones on the eviction boundary.
From a collection of exactly `MAX_ITEMS` records, none pinned, capturing a
genuinely new payload inserts it (`added = true`), leaves the collection at
exactly `MAX_ITEMS` records, and keeps every favorited record: the single
evicted record is a plain one, whatever the records' timestamps are (in
particular even when every favorited record is older than every plain one). -/
theorem favorite_eviction_C2 (now : Nat) (e : Payload) (fid : String)
    (items : List ClipEntry)
    (hlen : items.length = MAX_ITEMS)
    (hnp : ∀ x ∈ items, x.pinned = false)
    (hnew : items.countP (matchesB e) = 0) :
    (addOrUpdateItem now e fid items).2 = true
    ∧ ((addOrUpdateItem now e fid items).1).length = MAX_ITEMS
    ∧ (∀ x ∈ items, x.favorited = true → x ∈ (addOrUpdateItem now e fid items).1) := by
  have hx : extractFirst (matchesB e) items = none := extractFirst_eq_none_iff.mpr hnew
  simp only [addOrUpdateItem, hx]
  set newE : ClipEntry :=
    { id := fid, type := e.type, content := e.content, createdAt := now, updatedAt := now,
      pinned := false, favorited := false } with hnewE
  have hpinnil : (newE :: items).filter pinnedB = [] := by
    rw [List.filter_eq_nil_iff]
    intro a ha
    rcases List.mem_cons.mp ha with rfl | ha
    · simp [pinnedB, hnewE]
    · simp [pinnedB, hnp a ha]
  have hfavcons : (newE :: items).filter favNB = items.filter favNB := by
    simp [List.filter_cons, favNB, hnewE]
  have hplcons : (newE :: items).filter plainB = newE :: items.filter plainB := by
    simp [List.filter_cons, plainB, hnewE]
  have hsum := nonPinned_tier_sum hnp
  have hfle : (items.filter favNB).length ≤ MAX_ITEMS := by
    have := List.length_filter_le favNB items
    omega
  refine ⟨trivial, ?_, ?_⟩
  · rw [compactItems_length, hpinnil, hfavcons, hplcons]
    simp only [List.length_nil, List.length_cons]
    omega
  · intro x hxi hxf
    have hxfil : x ∈ items.filter favNB := by
      rw [List.mem_filter]
      exact ⟨hxi, by simp [favNB, hxf, hnp x hxi]⟩
    have hkept : x ∈ ((newE :: items).filter favNB).take
        (MAX_ITEMS - ((newE :: items).filter pinnedB).length) := by
      rw [hfavcons, hpinnil]
      simp only [List.length_nil, Nat.sub_zero]
      rw [List.take_of_length_le hfle]
      exact hxfil
    simp only [compactItems, List.mem_append]
    exact Or.inl (Or.inr hkept)

/-- Concrete full collection for the C2 witness: 100 favorited records
followed by 100 plain ones, none pinned. -/
def itemsFullMix : List ClipEntry :=
  List.replicate 100 ⟨"f", ClipType.text, "F", 0, 0, false, true, none, none⟩
    ++ List.replicate 100 ⟨"o", ClipType.text, "O", 0, 0, false, false, none, none⟩

set_option maxRecDepth 40000

/-- Witness for C2 at a concrete full collection and fresh payload. -/
theorem favorite_eviction_C2_witness :
    (itemsFullMix.length = MAX_ITEMS
      ∧ (∀ x ∈ itemsFullMix, x.pinned = false)
      ∧ itemsFullMix.countP (matchesB ⟨ClipType.text, "N"⟩) = 0)
    ∧ ((addOrUpdateItem 7 ⟨ClipType.text, "N"⟩ "new" itemsFullMix).2 = true
      ∧ ((addOrUpdateItem 7 ⟨ClipType.text, "N"⟩ "new" itemsFullMix).1).length = MAX_ITEMS
      ∧ (⟨"f", ClipType.text, "F", 0, 0, false, true, none, none⟩ : ClipEntry)
          ∈ (addOrUpdateItem 7 ⟨ClipType.text, "N"⟩ "new" itemsFullMix).1) := by
  have h := favorite_eviction_C2 7 ⟨ClipType.text, "N"⟩ "new" itemsFullMix
    (by decide) (by decide) (by decide)
  exact ⟨⟨by decide, by decide, by decide⟩,
    h.1, h.2.1, h.2.2 _ (by decide) (by decide)⟩

/-! ### C3 — within-tier retention is by list position, not by `updatedAt` -/

/-- A pinned record filling the quota in the C3 scenario. -/
def pinnedFiller : ClipEntry := ⟨"p", ClipType.text, "P", 0, 0, true, false, none, none⟩

/-- A plain record with the older `updatedAt`. -/
def plainOld : ClipEntry := ⟨"x", ClipType.text, "X", 0, 0, false, false, none, none⟩

/-- A plain record with the newer `updatedAt`. -/
def plainNew : ClipEntry := ⟨"y", ClipType.text, "Y", 0, 5, false, false, none, none⟩

/-- 199 pinned records followed by the two plain ones, with the
most-recently-updated plain record *last* in list order — the order a
sequence of in-place `replaceItem` updates can produce. -/
def tierOrderList : List ClipEntry :=
  List.replicate 199 pinnedFiller ++ [plainOld, plainNew]

/-- Counterexample to C3 as stated: compacting `tierOrderList` discards the
plain record with `updatedAt = 5` while keeping the plain record with
`updatedAt = 0`, so a discarded record has a strictly greater `updatedAt`
than a kept record of the same tier. -/
theorem compact_tier_recency_counterexample_C3 :
    plainNew ∈ tierOrderList
    ∧ plainNew ∉ compactItems tierOrderList
    ∧ plainOld ∈ compactItems tierOrderList
    ∧ plainB plainNew = true
    ∧ plainB plainOld = true
    ∧ ¬ (plainNew.updatedAt ≤ plainOld.updatedAt) := by decide

theorem tier_take_recency {tier : List ClipEntry} {q : Nat}
    (hsorted : tier.Pairwise (fun a b => b.updatedAt ≤ a.updatedAt))
    {x y : ClipEntry} (hx : x ∈ tier.take q) (hy : y ∈ tier) (hyn : y ∉ tier.take q) :
    y.updatedAt ≤ x.updatedAt := by
  have hsplit := List.take_append_drop q tier
  rw [← hsplit] at hsorted hy
  rcases List.mem_append.mp hy with h | h
  · exact absurd h hyn
  · exact (List.pairwise_append.mp hsorted).2.2 x hx y h

/-- C3 (amended) — `compactItems` never discards a pinned record and, within
the favorited and plain tiers, keeps a *list-order prefix* of the tier.
Consequently the claimed property — every discarded record's `updatedAt` is
at most every same-tier kept record's — holds exactly when the tier's list
order is already sorted by decreasing `updatedAt`; it fails on collections
whose list order disagrees with `updatedAt` order (see the counterexample). -/
theorem compact_tier_recency_C3 (l : List ClipEntry) :
    (∀ y ∈ l, pinnedB y = true → y ∈ compactItems l)
    ∧ ((l.filter favNB).Pairwise (fun a b => b.updatedAt ≤ a.updatedAt) →
        ∀ x ∈ compactItems l, ∀ y ∈ l, favNB x = true → favNB y = true →
          y ∉ compactItems l → y.updatedAt ≤ x.updatedAt)
    ∧ ((l.filter plainB).Pairwise (fun a b => b.updatedAt ≤ a.updatedAt) →
        ∀ x ∈ compactItems l, ∀ y ∈ l, plainB x = true → plainB y = true →
          y ∉ compactItems l → y.updatedAt ≤ x.updatedAt) := by
  refine ⟨?_, ?_, ?_⟩
  · intro y hy hp
    simp only [compactItems, List.mem_append]
    exact Or.inl (Or.inl (List.mem_filter.mpr ⟨hy, hp⟩))
  · intro hsorted x hxc y hyl hxf hyf hyn
    have hxkf : x ∈ (l.filter favNB).take (MAX_ITEMS - (l.filter pinnedB).length) := by
      simp only [compactItems, List.mem_append] at hxc
      rcases hxc with (h | h) | h
      · have := (List.mem_filter.mp h).2
        simp only [favNB, pinnedB] at hxf this
        rw [this] at hxf
        simp at hxf
      · exact h
      · have := (List.mem_filter.mp (List.mem_of_mem_take h)).2
        simp only [favNB, plainB, Bool.and_eq_true] at hxf this
        obtain ⟨hf, _⟩ := hxf
        obtain ⟨_, hnf⟩ := this
        rw [hf] at hnf
        simp at hnf
    have hykf : y ∉ (l.filter favNB).take (MAX_ITEMS - (l.filter pinnedB).length) := by
      intro hmem
      exact hyn (by
        simp only [compactItems, List.mem_append]
        exact Or.inl (Or.inr hmem))
    exact tier_take_recency hsorted hxkf (List.mem_filter.mpr ⟨hyl, hyf⟩) hykf
  · intro hsorted x hxc y hyl hxf hyf hyn
    have hxko : x ∈ (l.filter plainB).take
        ((MAX_ITEMS - (l.filter pinnedB).length) - (l.filter favNB).length) := by
      simp only [compactItems, List.mem_append] at hxc
      rcases hxc with (h | h) | h
      · have := (List.mem_filter.mp h).2
        simp only [plainB, pinnedB] at hxf this
        rw [this] at hxf
        simp at hxf
      · have := (List.mem_filter.mp (List.mem_of_mem_take h)).2
        simp only [favNB, plainB, Bool.and_eq_true] at hxf this
        obtain ⟨_, hnf⟩ := hxf
        obtain ⟨hf, _⟩ := this
        rw [hf] at hnf
        simp at hnf
      · exact h
    have hyko : y ∉ (l.filter plainB).take
        ((MAX_ITEMS - (l.filter pinnedB).length) - (l.filter favNB).length) := by
      intro hmem
      exact hyn (by
        simp only [compactItems, List.mem_append]
        exact Or.inr hmem)
    exact tier_take_recency hsorted hxko (List.mem_filter.mpr ⟨hyl, hyf⟩) hyko

/-- The C3 scenario with the plain tier in recency order: here the claim's
property does hold, witnessing the amended statement. -/
def tierSortedList : List ClipEntry :=
  List.replicate 199 pinnedFiller ++ [plainNew, plainOld]

/-- Witness for the amended C3 at a concrete sorted collection. -/
theorem compact_tier_recency_C3_witness :
    ((tierSortedList.filter plainB).Pairwise (fun a b => b.updatedAt ≤ a.updatedAt))
    ∧ plainOld.updatedAt ≤ plainNew.updatedAt := by
  refine ⟨by decide, ?_⟩
  exact (compact_tier_recency_C3 tierSortedList).2.2 (by decide)
    plainNew (by decide) plainOld (by decide) (by decide) (by decide) (by decide)

/-! ### C4 — the dedup behaviour of two successive captures -/

/-- A record that occupies pinned-or-favorited retention capacity. -/
def notPlainB (item : ClipEntry) : Bool := item.pinned || item.favorited

theorem pinned_fav_sum (l : List ClipEntry) :
    (l.filter pinnedB).length + (l.filter favNB).length = l.countP notPlainB := by
  induction l with
  | nil => simp
  | cons a as ih =>
    by_cases hp : a.pinned <;> by_cases hf : a.favorited <;>
      simp only [List.filter_cons, List.countP_cons, pinnedB, favNB, notPlainB, hp, hf,
        Bool.not_true, Bool.not_false, Bool.true_and, Bool.false_and, Bool.and_true,
        Bool.and_false, Bool.true_or, Bool.false_or, if_true, if_false,
        Bool.false_eq_true, List.length_cons] <;>
      omega

theorem matchesB_update (e : Payload) (x : ClipEntry) (now : Nat) :
    matchesB e { x with updatedAt := now } = matchesB e x := rfl

/-- One `addOrUpdateItem` call on a deduplicated collection whose pinned and
favorited tiers leave at least one plain slot: afterwards exactly one record
matches the payload, every matching record carries `updatedAt = now`, and
the tier-capacity bound still holds. -/
theorem addOrUpdate_core (now : Nat) (e : Payload) (fid : String) (items : List ClipEntry)
    (hdup : items.countP (matchesB e) ≤ 1)
    (hcap : items.countP notPlainB < MAX_ITEMS) :
    ((addOrUpdateItem now e fid items).1).countP (matchesB e) = 1
    ∧ (∀ v ∈ (addOrUpdateItem now e fid items).1, matchesB e v = true → v.updatedAt = now)
    ∧ ((addOrUpdateItem now e fid items).1).countP notPlainB < MAX_ITEMS := by
  cases hx : extractFirst (matchesB e) items with
  | some pr =>
    obtain ⟨x, rest⟩ := pr
    simp only [addOrUpdateItem, hx]
    have hms : matchesB e x = true := extractFirst_prop hx
    have hcnt := extractFirst_countP hx (matchesB e)
    have hnp := extractFirst_countP hx notPlainB
    have hrest0 : rest.countP (matchesB e) = 0 := by
      rw [hcnt, List.countP_cons_of_pos _ rest hms] at hdup
      omega
    have hpre1 : ({ x with updatedAt := now } :: rest).countP (matchesB e) = 1 := by
      rw [List.countP_cons_of_pos _ rest (by rw [matchesB_update]; exact hms), hrest0]
    have hprecap : ({ x with updatedAt := now } :: rest).countP notPlainB
        = items.countP notPlainB := by
      rw [hnp]
      simp only [List.countP_cons]
      rfl
    have hmem : ({ x with updatedAt := now } : ClipEntry)
        ∈ compactItems ({ x with updatedAt := now } :: rest) := by
      apply head_mem_compactItems
      rw [pinned_fav_sum, hprecap]
      exact hcap
    refine ⟨?_, ?_, ?_⟩
    · have hle := compactItems_countP_le (matchesB e) ({ x with updatedAt := now } :: rest)
      rw [hpre1] at hle
      have hpos : 0 < (compactItems ({ x with updatedAt := now } :: rest)).countP (matchesB e) :=
        List.countP_pos_iff.mpr ⟨_, hmem, by rw [matchesB_update]; exact hms⟩
      omega
    · intro v hv hmv
      rcases List.mem_cons.mp (mem_of_mem_compactItems hv) with rfl | hvr
      · rfl
      · exact absurd hmv (by
          have := List.countP_eq_zero.mp hrest0 v hvr
          simp [this])
    · have hle := compactItems_countP_le notPlainB ({ x with updatedAt := now } :: rest)
      rw [hprecap] at hle
      omega
  | none =>
    simp only [addOrUpdateItem, hx]
    have hitems0 : items.countP (matchesB e) = 0 := extractFirst_eq_none_iff.mp hx
    set newE : ClipEntry :=
      { id := fid, type := e.type, content := e.content, createdAt := now, updatedAt := now,
        pinned := false, favorited := false } with hnewE
    have hmn : matchesB e newE = true := by simp [matchesB, hnewE]
    have hpre1 : (newE :: items).countP (matchesB e) = 1 := by
      rw [List.countP_cons_of_pos _ items hmn, hitems0]
    have hprecap : (newE :: items).countP notPlainB = items.countP notPlainB := by
      simp only [List.countP_cons]
      simp [notPlainB, hnewE]
    have hmem : newE ∈ compactItems (newE :: items) := by
      apply head_mem_compactItems
      rw [pinned_fav_sum, hprecap]
      exact hcap
    refine ⟨?_, ?_, ?_⟩
    · have hle := compactItems_countP_le (matchesB e) (newE :: items)
      rw [hpre1] at hle
      have hpos : 0 < (compactItems (newE :: items)).countP (matchesB e) :=
        List.countP_pos_iff.mpr ⟨_, hmem, hmn⟩
      omega
    · intro v hv hmv
      rcases List.mem_cons.mp (mem_of_mem_compactItems hv) with rfl | hvr
      · rfl
      · exact absurd hmv (by
          have := List.countP_eq_zero.mp hitems0 v hvr
          simp [this])
    · have hle := compactItems_countP_le notPlainB (newE :: items)
      rw [hprecap] at hle
      omega

theorem addOrUpdateItem_snd_of_some {now : Nat} {e : Payload} {fid : String}
    {l : List ClipEntry} {x : ClipEntry} {rest : List ClipEntry}
    (h : extractFirst (matchesB e) l = some (x, rest)) :
    (addOrUpdateItem now e fid l).2 = false := by
  simp [addOrUpdateItem, h]

/-- C4 (amended) — dedup across two successive captures of the same payload.
Amended with the two hypotheses the code forces: the starting collection
holds at most one record matching the payload (the dedup invariant itself),
and its pinned + favorited records leave at least one plain slot under the
cap (otherwise `compactItems` evicts the record the call just inserted, and
the second call re-inserts it with `added = true` — see the counterexample).
Under these hypotheses: the second call reports `added = false`, exactly one
record matches the payload afterwards, and the matching record's
`updatedAt` after the second call is at least its value after the first. -/
theorem addOrUpdate_dedup_C4 (t1 t2 : Nat) (e : Payload) (fid1 fid2 : String)
    (items : List ClipEntry)
    (hdup : items.countP (matchesB e) ≤ 1)
    (hcap : items.countP notPlainB < MAX_ITEMS)
    (ht : t1 ≤ t2) :
    (addOrUpdateItem t2 e fid2 (addOrUpdateItem t1 e fid1 items).1).2 = false
    ∧ ((addOrUpdateItem t2 e fid2 (addOrUpdateItem t1 e fid1 items).1).1).countP
        (matchesB e) = 1
    ∧ (∀ u ∈ (addOrUpdateItem t2 e fid2 (addOrUpdateItem t1 e fid1 items).1).1,
        ∀ v ∈ (addOrUpdateItem t1 e fid1 items).1,
        matchesB e u = true → matchesB e v = true → v.updatedAt ≤ u.updatedAt) := by
  obtain ⟨h1cnt, h1upd, h1cap⟩ := addOrUpdate_core t1 e fid1 items hdup hcap
  obtain ⟨h2cnt, h2upd, _⟩ :=
    addOrUpdate_core t2 e fid2 (addOrUpdateItem t1 e fid1 items).1 (by omega) h1cap
  refine ⟨?_, h2cnt, ?_⟩
  · cases hx2 : extractFirst (matchesB e) (addOrUpdateItem t1 e fid1 items).1 with
    | some pr =>
      obtain ⟨x, rest⟩ := pr
      exact addOrUpdateItem_snd_of_some hx2
    | none =>
      have := extractFirst_eq_none_iff.mp hx2
      omega
  · intro u hu v hv hmu hmv
    have := h1upd v hv hmv
    have := h2upd u hu hmu
    omega

/-- A collection already filled to the cap with pinned records. -/
def pinnedFullList : List ClipEntry :=
  List.replicate 200 ⟨"p", ClipType.text, "P", 0, 0, true, false, none, none⟩

/-- Counterexample to C4 as stated ("for every starting collection"):
with the cap already filled by pinned records, the record each call inserts
is immediately evicted by `compactItems`, so the second call again reports
`added = true` and no record matching the payload remains. -/
theorem addOrUpdate_dedup_counterexample_C4 :
    (addOrUpdateItem 2 ⟨ClipType.text, "N"⟩ "b"
        (addOrUpdateItem 1 ⟨ClipType.text, "N"⟩ "a" pinnedFullList).1).2 = true
    ∧ ((addOrUpdateItem 2 ⟨ClipType.text, "N"⟩ "b"
        (addOrUpdateItem 1 ⟨ClipType.text, "N"⟩ "a" pinnedFullList).1).1).countP
          (matchesB ⟨ClipType.text, "N"⟩) = 0 := by decide

/-- Witness for the amended C4 at a concrete one-record collection. -/
theorem addOrUpdate_dedup_C4_witness :
    (([⟨"f", ClipType.text, "F", 0, 0, false, true, none, none⟩] : List ClipEntry).countP
        (matchesB ⟨ClipType.text, "N"⟩) ≤ 1
      ∧ ([⟨"f", ClipType.text, "F", 0, 0, false, true, none, none⟩] : List ClipEntry).countP
          notPlainB < MAX_ITEMS
      ∧ 1 ≤ 2)
    ∧ ((addOrUpdateItem 2 ⟨ClipType.text, "N"⟩ "b"
        (addOrUpdateItem 1 ⟨ClipType.text, "N"⟩ "a"
          [⟨"f", ClipType.text, "F", 0, 0, false, true, none, none⟩]).1).2 = false
      ∧ (⟨"a", ClipType.text, "N", 1, 1, false, false, none, none⟩ : ClipEntry).updatedAt
          ≤ (⟨"a", ClipType.text, "N", 1, 2, false, false, none, none⟩ : ClipEntry).updatedAt) := by
  have h := addOrUpdate_dedup_C4 1 2 ⟨ClipType.text, "N"⟩ "a" "b"
    [⟨"f", ClipType.text, "F", 0, 0, false, true, none, none⟩]
    (by decide) (by decide) (by decide)
  refine ⟨⟨by decide, by decide, by decide⟩, h.1, ?_⟩
  exact h.2.2 _ (by decide) _ (by decide) (by decide) (by decide)

/-- C5 — capture "A" (text), then "B" (image), then "A" (text) again, from an
empty collection: exactly two records remain, head-to-tail `[A, B]`; the
third call is an update (`added = false`); record A keeps the id and
`createdAt` of its first capture while its `updatedAt` becomes the third
capture time, hence at least B's `updatedAt`. -/
theorem capture_scenario_C5 (t1 t2 t3 : Nat) (idA idB idC : String) (h23 : t2 ≤ t3) :
    addOrUpdateItem t3 ⟨ClipType.text, "A"⟩ idC
        ((addOrUpdateItem t2 ⟨ClipType.image, "B"⟩ idB
          ((addOrUpdateItem t1 ⟨ClipType.text, "A"⟩ idA []).1)).1)
      = ([⟨idA, ClipType.text, "A", t1, t3, false, false, none, none⟩,
          ⟨idB, ClipType.image, "B", t2, t2, false, false, none, none⟩], false)
    ∧ (⟨idB, ClipType.image, "B", t2, t2, false, false, none, none⟩ : ClipEntry).updatedAt
        ≤ (⟨idA, ClipType.text, "A", t1, t3, false, false, none, none⟩ : ClipEntry).updatedAt := by
  exact ⟨rfl, h23⟩

/-- Witness for C5 at concrete times and ids. -/
theorem capture_scenario_C5_witness :
    (2 ≤ 3)
    ∧ addOrUpdateItem 3 ⟨ClipType.text, "A"⟩ "c"
        ((addOrUpdateItem 2 ⟨ClipType.image, "B"⟩ "b"
          ((addOrUpdateItem 1 ⟨ClipType.text, "A"⟩ "a" []).1)).1)
      = ([⟨"a", ClipType.text, "A", 1, 3, false, false, none, none⟩,
          ⟨"b", ClipType.image, "B", 2, 2, false, false, none, none⟩], false) :=
  ⟨by decide, (capture_scenario_C5 1 2 3 "a" "b" "c" (by decide)).1⟩

/-- C10 — `toggleFavorite` flips `favorited`, sets `favoritedAt` to the
current time when favoriting and clears it (to `undefined`) when
unfavoriting, and leaves every other field — in particular `updatedAt` —
unchanged. -/
theorem toggleFavorite_C10 (now : Nat) (item : ClipEntry) :
    ((item.favorited = true →
        (toggleFavorite now item).favorited = false
        ∧ (toggleFavorite now item).favoritedAt = none)
      ∧ (item.favorited = false →
        (toggleFavorite now item).favorited = true
        ∧ (toggleFavorite now item).favoritedAt = some now))
    ∧ (toggleFavorite now item).id = item.id
    ∧ (toggleFavorite now item).type = item.type
    ∧ (toggleFavorite now item).content = item.content
    ∧ (toggleFavorite now item).createdAt = item.createdAt
    ∧ (toggleFavorite now item).updatedAt = item.updatedAt
    ∧ (toggleFavorite now item).pinned = item.pinned
    ∧ (toggleFavorite now item).favoriteNote = item.favoriteNote := by
  unfold toggleFavorite
  refine ⟨⟨?_, ?_⟩, rfl, rfl, rfl, rfl, rfl, rfl, rfl⟩
  · intro h
    simp [h]
  · intro h
    simp [h]

/-- Witness for C10 at a concrete favorited record. -/
theorem toggleFavorite_C10_witness :
    (toggleFavorite 9 ⟨"i", ClipType.text, "T", 0, 4, false, true, none, some 3⟩).favorited = false
    ∧ (toggleFavorite 9 ⟨"i", ClipType.text, "T", 0, 4, false, true, none, some 3⟩).favoritedAt
        = none
    ∧ (toggleFavorite 9 ⟨"i", ClipType.text, "T", 0, 4, false, true, none, some 3⟩).updatedAt
        = 4 := by
  have h := toggleFavorite_C10 9 ⟨"i", ClipType.text, "T", 0, 4, false, true, none, some 3⟩
  exact ⟨(h.1.1 rfl).1, (h.1.1 rfl).2, h.2.2.2.2.2.1⟩

/-! ### C7 — the poll-loop state and the last-accepted hash -/

/-- Renderer loop state (`Clipboard/index.vue`, `src/unnamed/part_003`):
the `pollTimer` handle and the `lastHash` ref.  A JS `null` is `none`. -/
structure RendererLoopState where
  pollTimer : Option Nat
  lastHash : Option String
deriving DecidableEq

/-- Function `startPolling` (part_003 lines 974-979): a no-op when a timer is already
set, otherwise stores the new interval handle.  It does not touch `lastHash`. -/
def startPolling (handle : Nat) (s : RendererLoopState) : RendererLoopState :=
  if s.pollTimer.isSome then s else { s with pollTimer := some handle }

/-- Function `stopPolling` (part_003 lines 981-986): clears the interval and nulls the
timer handle.  It does not touch `lastHash`. -/
def stopPolling (s : RendererLoopState) : RendererLoopState :=
  { s with pollTimer := none }

/-- The `${entry.type}:${entry.content}` identity hash of `captureClipboard`
and `captureAndPersistClipboard`. -/
def hashOf (e : Payload) : String :=
  (match e.type with
    | ClipType.text => "text"
    | ClipType.image => "image") ++ ":" ++ e.content

/-- The store-level effect of a silent `captureClipboard(true)` tick
(part_003 lines 1187-1215) once `readClipboard` has resolved to `entry`:
no content is a no-op; content whose hash equals `lastHash` is skipped
(`if (silent && hash === lastHash.value) return`); otherwise `lastHash` is
updated and `addOrUpdateItem` runs. -/
def captureSilentStep (entry : Option Payload) (now : Nat) (fid : String)
    (s : RendererLoopState) (items : List ClipEntry) : RendererLoopState × List ClipEntry :=
  match entry with
  | none => (s, items)
  | some e =>
    let hash := hashOf e
    if s.lastHash = some hash then (s, items)
    else ({ s with lastHash := some hash }, (addOrUpdateItem now e fid items).1)

/-- Preload watcher state (`src/unnamed/part_001` / `part_002`): the
module-level `watcherTimer` and `lastHash` variables. -/
structure WatcherState where
  watcherTimer : Option Nat
  lastHash : Option String
deriving DecidableEq

/-- Function `stopClipboardWatcher` (part_001 lines 93-100, part_002 lines 95-102):
clears the interval, nulls the timer handle, and — unconditionally —
resets `lastHash` to `null`. -/
def stopClipboardWatcher (s : WatcherState) : WatcherState :=
  { s with watcherTimer := none, lastHash := none }

/-- Function `captureAndPersistClipboard` (part_001 lines 129-160): read the
clipboard (`clip`, `none` when empty/failed), short-circuit on an unchanged
hash, otherwise record the hash and run the dedup/insert/compact block —
which is the same algorithm as the renderer's `addOrUpdateItem`, embedded
once above. -/
def captureAndPersistClipboard (clip : Option Payload) (now : Nat) (fid : String)
    (s : WatcherState) (store : List ClipEntry) : WatcherState × List ClipEntry :=
  match clip with
  | none => (s, store)
  | some e =>
    let hash := hashOf e
    if s.lastHash = some hash then (s, store)
    else ({ s with lastHash := some hash }, (addOrUpdateItem now e fid store).1)

/-- Function `startClipboardWatcher` (part_001 lines 80-91): a no-op when already
running; otherwise immediately captures once, then installs the interval
handle. -/
def startClipboardWatcher (clip : Option Payload) (now : Nat) (fid : String) (handle : Nat)
    (s : WatcherState) (store : List ClipEntry) : WatcherState × List ClipEntry :=
  if s.watcherTimer.isSome then (s, store)
  else
    let r := captureAndPersistClipboard clip now fid s store
    ({ r.1 with watcherTimer := some handle }, r.2)

/-- Counterexample to C7 as stated: the preload's `stopClipboardWatcher`
resets `lastHash` to `null`, so after a stop (and after a stop/restart whose
immediate capture reads nothing) the stored `lastHash` differs from its
value before the stop. -/
theorem watcher_lasthash_counterexample_C7 :
    (stopClipboardWatcher ⟨some 1, some "text:A"⟩).lastHash ≠ some "text:A"
    ∧ (startClipboardWatcher none 5 "x" 2
        (stopClipboardWatcher ⟨some 1, some "text:A"⟩) []).1.lastHash
      ≠ some "text:A" := by decide

/-- C7 (amended) — in the renderer loop, `stopPolling` followed by
`startPolling` leaves `lastHash` exactly as it was, so a silent recapture of
unchanged content after resuming short-circuits into a no-op; the preload
watcher's `stopClipboardWatcher`, by contrast, resets `lastHash` to `null`. -/
theorem polling_lasthash_C7 :
    (∀ (s : RendererLoopState) (h : Nat),
      (startPolling h (stopPolling s)).lastHash = s.lastHash)
    ∧ (∀ (s : RendererLoopState) (items : List ClipEntry) (e : Payload)
        (now : Nat) (fid : String),
        s.lastHash = some (hashOf e) →
        captureSilentStep (some e) now fid s items = (s, items))
    ∧ (∀ s : WatcherState, (stopClipboardWatcher s).lastHash = none) := by
  refine ⟨?_, ?_, ?_⟩
  · intro s h
    simp [startPolling, stopPolling]
  · intro s items e now fid hh
    simp [captureSilentStep, hh]
  · intro s
    rfl

/-- Witness for the amended C7 at a concrete state and payload. -/
theorem polling_lasthash_C7_witness :
    ((⟨none, some "text:A"⟩ : RendererLoopState).lastHash
        = some (hashOf ⟨ClipType.text, "A"⟩))
    ∧ captureSilentStep (some ⟨ClipType.text, "A"⟩) 9 "z" ⟨none, some "text:A"⟩ []
        = (⟨none, some "text:A"⟩, []) :=
  ⟨by decide, polling_lasthash_C7.2.1 _ _ _ _ _ (by decide)⟩

/-! ### C6 — focus-skip of the standard clipboard API -/

/-- Outcome of invoking an optional host API: the function is absent
(optional chaining short-circuits), it throws, or it returns a value.
JS falsy results are encoded in the value type (empty string / empty list). -/
inductive ApiCall (α : Type) where
  | absent
  | throws
  | ret (a : α)
deriving DecidableEq

/-- One `ClipboardItem` yielded by `navigator.clipboard.read()`: its MIME
`types`, the PNG blob already rendered as a data URL, and the `text/plain`
blob's text. -/
structure NavClipItem where
  types : List String
  pngDataUrl : String
  plainText : String
deriving DecidableEq

/-- The host environment a `readClipboard` call sees.  `readImage` /
`readText` are the uTools native APIs (returning `""` for a falsy result);
`hasFocus` is `document.hasFocus()` (the embedding assumes a browser
`document` exists); `navReadItems` is `navigator.clipboard.read` and
`navReadTextVal` is `navigator.clipboard.readText`. -/
structure ClipboardEnv where
  readImage : ApiCall String
  readText : ApiCall String
  hasFocus : Bool
  navReadItems : ApiCall (List NavClipItem)
  navReadTextVal : ApiCall String
deriving DecidableEq

/-- The `utoolsApi?.readText` half of the native `try` block
(part_003 lines 1230-1235): absent or falsy yields nothing. -/
def nativeReadText (env : ClipboardEnv) : Option Payload :=
  match env.readText with
  | ApiCall.absent => none
  | ApiCall.throws => none
  | ApiCall.ret t => if t = "" then none else some ⟨ClipType.text, t⟩

/-- The native uTools `try { readImage; readText } catch` block
(part_003 lines 1223-1238).  A throw from `readImage` jumps to the `catch`,
skipping `readText`. -/
def nativeRead (env : ClipboardEnv) : Option Payload :=
  match env.readImage with
  | ApiCall.absent => nativeReadText env
  | ApiCall.throws => none
  | ApiCall.ret img => if img = "" then nativeReadText env else some ⟨ClipType.image, img⟩

/-- The `for (const item of clipItems)` loop of the standard-API branch
(part_003 lines 1248-1261): `image/png` wins immediately; a `text/plain`
item returns its trimmed text when non-empty, else the loop continues. -/
def scanClipItems : List NavClipItem → Option Payload
  | [] => none
  | it :: rest =>
    if "image/png" ∈ it.types then some ⟨ClipType.image, it.pngDataUrl⟩
    else if "text/plain" ∈ it.types then
      if it.plainText.trim = "" then scanClipItems rest
      else some ⟨ClipType.text, it.plainText.trim⟩
    else scanClipItems rest

/-- The final `navigator.clipboard.readText` fallback (part_003 lines
1267-1274).  The second component accumulates the names of the standard
platform APIs actually invoked. -/
def readTextFallback (env : ClipboardEnv) (trace : List String) :
    Option Payload × List String :=
  match env.navReadTextVal with
  | ApiCall.absent => (none, trace)
  | ApiCall.throws => (none, trace ++ ["navigator.clipboard.readText"])
  | ApiCall.ret s =>
    if s.trim = "" then (none, trace ++ ["navigator.clipboard.readText"])
    else (some ⟨ClipType.text, s.trim⟩, trace ++ ["navigator.clipboard.readText"])

/-- Function `readClipboard` (part_003 lines 1221-1276): native path first; then the
silent/focus guard (`if (silent && ... && !document.hasFocus()) return null`);
then `navigator.clipboard.read`, then `readText`.  Alongside the result it
reports which standard platform APIs were invoked. -/
def readClipboard (env : ClipboardEnv) (silent : Bool) : Option Payload × List String :=
  match nativeRead env with
  | some p => (some p, [])
  | none =>
    if silent && !env.hasFocus then (none, [])
    else
      match env.navReadItems with
      | ApiCall.absent => readTextFallback env []
      | ApiCall.throws => readTextFallback env ["navigator.clipboard.read"]
      | ApiCall.ret clipItems =>
        match scanClipItems clipItems with
        | some p => (some p, ["navigator.clipboard.read"])
        | none => readTextFallback env ["navigator.clipboard.read"]

/-- C6 — on a silent (background) tick with the hosting surface unfocused
and the native uTools path yielding nothing, `readClipboard` returns `null`
and neither `navigator.clipboard.read` nor `navigator.clipboard.readText`
is ever invoked. -/
theorem focus_skip_C6 (env : ClipboardEnv)
    (hfocus : env.hasFocus = false)
    (hnative : nativeRead env = none) :
    readClipboard env true = (none, []) := by
  simp [readClipboard, hnative, hfocus]

/-- Concrete environment for the C6 witness: unfocused surface, empty native
reads, and a standard clipboard that *would* yield both an image item and
text if it were consulted. -/
def focusSkipEnv : ClipboardEnv :=
  { readImage := ApiCall.ret ""
    readText := ApiCall.throws
    hasFocus := false
    navReadItems := ApiCall.ret [⟨["image/png"], "data:image/png;base64,AAA", ""⟩]
    navReadTextVal := ApiCall.ret "hello" }

/-- Witness for C6 at `focusSkipEnv`. -/
theorem focus_skip_C6_witness :
    (focusSkipEnv.hasFocus = false ∧ nativeRead focusSkipEnv = none)
    ∧ readClipboard focusSkipEnv true = (none, []) :=
  ⟨⟨rfl, by decide⟩, focus_skip_C6 focusSkipEnv rfl (by decide)⟩

/-! ### C9 — loading: document store first, legacy blob as migration source -/

/-- The constant `CLIP_DOC_PREFIX = 'clip:'` — the per-record document key prefix
(named `clipDocPrefixVal` here). -/
def clipDocPrefixVal : String := "clip:"

/-- A raw document as returned by `utools.db.allDocs(CLIP_DOC_PREFIX)`.
`pinned` / `favorited` may be absent (`none`); `!!doc.pinned` is
`Option.getD false`.  An absent `content` is the empty string (falsy). -/
structure RawDoc where
  docId : String
  rev : Option String
  type : ClipType
  content : String
  createdAt : Nat
  updatedAt : Nat
  pinned : Option Bool := none
  favorited : Option Bool := none
  favoriteNote : Option String := none
  favoritedAt : Option Nat := none
deriving DecidableEq

/-- A parsed element of the legacy single-blob array.  Missing truthiness
fields (`id`, `content`) are the empty string; `pinned` / `favorited` may be
absent. -/
structure LegacyItem where
  id : String := ""
  type : ClipType := ClipType.text
  content : String := ""
  createdAt : Nat := 0
  updatedAt : Nat := 0
  pinned : Option Bool := none
  favorited : Option Bool := none
  favoriteNote : Option String := none
  favoritedAt : Option Nat := none
deriving DecidableEq

/-- The raw legacy blob: absent/falsy, present but not a parseable array
(`JSON.parse` throwing is also this case), or a parsed array. -/
inductive LegacyRaw where
  | missing
  | notArray
  | arr (xs : List LegacyItem)
deriving DecidableEq

/-- The storage environment `loadItems` reads: `db = none` when
`utools.db?.allDocs` is unavailable, else the documents under the prefix;
`legacy` is the `dbStorage`/`localStorage` blob. -/
structure LoadEnv where
  db : Option (List RawDoc)
  legacy : LegacyRaw
deriving DecidableEq

/-- Function `loadFromLocalDb` (part_003 lines 1010-1038): filter to prefixed docs
with truthy content, map to `ClipEntry` (dropping the prefix from the id,
defaulting `pinned`/`favorited` with `!!`), re-filter truthy `id`/`content`,
and truncate to `MAX_ITEMS`.  (The `_rev` values it caches on the side feed
the persist path's revision cache, modelled with `DbEnv` below.) -/
def loadFromLocalDb (env : LoadEnv) : List ClipEntry :=
  match env.db with
  | none => []
  | some docs =>
    (((docs.filter (fun d =>
          d.docId.startsWith clipDocPrefixVal && decide (d.content ≠ ""))).map
        (fun d =>
          ({ id := d.docId.drop clipDocPrefixVal.length, type := d.type,
             content := d.content, createdAt := d.createdAt, updatedAt := d.updatedAt,
             pinned := d.pinned.getD false, favorited := d.favorited.getD false,
             favoriteNote := d.favoriteNote, favoritedAt := d.favoritedAt } : ClipEntry))).filter
      (fun it => decide (it.id ≠ "") && decide (it.content ≠ ""))).take MAX_ITEMS

/-- The `{ pinned: false, favorited: false, ...item }` spread of
`loadLegacyItems`: the defaults apply only when the parsed item lacks the
field. -/
def legacyEntryOf (j : LegacyItem) : ClipEntry :=
  { id := j.id, type := j.type, content := j.content, createdAt := j.createdAt,
    updatedAt := j.updatedAt, pinned := j.pinned.getD false,
    favorited := j.favorited.getD false, favoriteNote := j.favoriteNote,
    favoritedAt := j.favoritedAt }

/-- Function `loadLegacyItems` (part_003 lines 1041-1062): nothing unless the blob
parses to an array; keep items with truthy `id` and `content`, apply the
defaults, truncate to `MAX_ITEMS`. -/
def loadLegacyItems (env : LoadEnv) : List ClipEntry :=
  match env.legacy with
  | LegacyRaw.missing => []
  | LegacyRaw.notArray => []
  | LegacyRaw.arr xs =>
    ((xs.filter (fun j => decide (j.id ≠ "") && decide (j.content ≠ ""))).map
        legacyEntryOf).take MAX_ITEMS

/-- Function `loadItems` (part_003 lines 988-999).  Besides the returned collection,
the second component records whether the legacy blob was consulted, and the
third is the argument passed to `persistItemsToLocalDb` for the migration
write-back (`none` when no write-back happens). -/
def loadItems (env : LoadEnv) : List ClipEntry × Bool × Option (List ClipEntry) :=
  let dbItems := loadFromLocalDb env
  if dbItems.length ≠ 0 then (dbItems, false, none)
  else
    let legacy := loadLegacyItems env
    (legacy, true, if legacy.length ≠ 0 then some legacy else none)

/-- C9 — migration from the legacy blob.  When the document store yields an
empty collection and the legacy blob parses to an array with usable records,
`loadItems` returns the legacy records (with `pinned`/`favorited` defaulted
to `false` when absent and truncated to at most `MAX_ITEMS`) and immediately
writes exactly those records back through the document-store strategy; when
the document store is non-empty, the legacy blob is never consulted. -/
theorem legacy_migration_C9 :
    (∀ (env : LoadEnv) (xs : List LegacyItem),
      env.legacy = LegacyRaw.arr xs →
      loadFromLocalDb env = [] →
      loadLegacyItems env ≠ [] →
      loadItems env = (loadLegacyItems env, true, some (loadLegacyItems env))
      ∧ (loadLegacyItems env).length ≤ MAX_ITEMS
      ∧ (∀ r ∈ loadLegacyItems env, ∃ j ∈ xs,
          r = legacyEntryOf j ∧ r.pinned = j.pinned.getD false
          ∧ r.favorited = j.favorited.getD false))
    ∧ (∀ env : LoadEnv, loadFromLocalDb env ≠ [] →
        loadItems env = (loadFromLocalDb env, false, none)) := by
  constructor
  · intro env xs hleg hdb hne
    have hlen : (loadLegacyItems env).length ≠ 0 := fun h0 => hne (List.length_eq_zero.mp h0)
    refine ⟨?_, ?_, ?_⟩
    · simp [loadItems, hdb, hlen]
    · simp only [loadLegacyItems, hleg]
      rw [List.length_take]
      omega
    · intro r hr
      simp only [loadLegacyItems, hleg] at hr
      have hr' := List.mem_of_mem_take hr
      obtain ⟨j, hj, rfl⟩ := List.mem_map.mp hr'
      exact ⟨j, List.mem_of_mem_filter hj, rfl, rfl, rfl⟩
  · intro env hdb
    have hlen : (loadFromLocalDb env).length ≠ 0 := fun h0 => hdb (List.length_eq_zero.mp h0)
    simp [loadItems, hlen]

/-- Concrete environment for the C9 witness: empty document store, legacy
blob holding one usable record (with `pinned` absent and `favorited` set)
and one record without an id, which is filtered out. -/
def legacyEnv : LoadEnv :=
  { db := some []
    legacy := LegacyRaw.arr
      [{ id := "g", type := ClipType.text, content := "C", createdAt := 1, updatedAt := 2,
         favorited := some true },
       { content := "orphan" }] }

/-- Witness for C9 at `legacyEnv`. -/
theorem legacy_migration_C9_witness :
    (loadFromLocalDb legacyEnv = [] ∧ loadLegacyItems legacyEnv ≠ [])
    ∧ loadItems legacyEnv = (loadLegacyItems legacyEnv, true, some (loadLegacyItems legacyEnv))
    ∧ (loadLegacyItems legacyEnv).length ≤ MAX_ITEMS := by
  have h := legacy_migration_C9.1 legacyEnv _ rfl (by decide) (by decide)
  exact ⟨⟨by decide, by decide⟩, h.1, h.2.1⟩

/-! ### C8 — conflict retry and revision caching in the document-store save -/

/-- Result of `db.put`: `{ ok: true, rev }` or `{ error: true }`. -/
inductive PutResult where
  | ok (rev : String)
  | err
deriving DecidableEq

/-- The `_id`/`_rev` metadata of a document already in the store, as
returned by `db.allDocs(CLIP_DOC_PREFIX)`. -/
structure DbDocMeta where
  docId : String
  rev : Option String
deriving DecidableEq

/-- The document-store oracle a save interacts with: the existing documents
under the prefix, the store's response to `db.put` as a function of the
document id and the `_rev` attached to the call, and whether `db.remove`
throws for a given id (its exception is caught and skips the retry). -/
structure DbEnv where
  existingDocs : List DbDocMeta
  putResult : String → Option String → PutResult
  removeThrows : String → Bool

/-- The module-level `dbRevCache` object: id → cached revision. -/
def RevCache : Type := String → Option String

/-- The assignment `dbRevCache[k] = v`. -/
def cacheSet (c : RevCache) (k : String) (v : String) : RevCache :=
  fun q => if q = k then some v else c q

/-- The statement `delete dbRevCache[k]`. -/
def cacheDel (c : RevCache) (k : String) : RevCache :=
  fun q => if q = k then none else c q

/-- The `existing.forEach(... if (doc._rev) dbRevCache[doc._id] = doc._rev)`
seeding pass of `persistItemsToLocalDb`. -/
def seedCache : List DbDocMeta → RevCache → RevCache
  | [], c => c
  | d :: ds, c =>
    match d.rev with
    | some r => seedCache ds (cacheSet c d.docId r)
    | none => seedCache ds c

/-- The lookup `existingMap.get(docId)?._rev`. -/
def existingRev (docs : List DbDocMeta) (docId : String) : Option String :=
  match docs.find? (fun d => decide (d.docId = docId)) with
  | some d => d.rev
  | none => none

/-- The per-record document key: `` `${CLIP_DOC_PREFIX}${item.id}` ``. -/
def docIdOf (item : ClipEntry) : String := clipDocPrefixVal ++ item.id

/-- The expression `dbRevCache[docId] || existingMap.get(docId)?._rev` (revision strings
are non-empty, so JS falsiness is just absence). -/
def cachedRevOf (env : DbEnv) (c : RevCache) (docId : String) : Option String :=
  match c docId with
  | some r => some r
  | none => existingRev env.existingDocs docId

/-- A call the save issues against the store. -/
inductive DbOp where
  | putDoc (docId : String) (rev : Option String)
  | removeDoc (docId : String)
deriving DecidableEq

/-- The stale-document removal pass of `persistItemsToLocalDb` (part_003
lines 1078-1087): every existing document whose id is not in the target set
is removed and its cache entry deleted (the deletion happens even when
`db.remove` throws, since only the remove call is inside the `try`). -/
def removeStale (targets : List String) : List DbDocMeta → RevCache → RevCache × List DbOp
  | [], c => (c, [])
  | d :: ds, c =>
    if d.docId ∈ targets then removeStale targets ds c
    else
      let r := removeStale targets ds (cacheDel c d.docId)
      (r.1, DbOp.removeDoc d.docId :: r.2)

/-- The per-record upsert of `persistItemsToLocalDb` (part_003 lines
1090-1112): put with the cached/known revision attached; on `{ ok, rev }`
cache the new revision; on `{ error }` remove the document and retry the
put exactly once without `_rev` (unless the remove threw), caching the
retry's revision when it succeeds. -/
def putOne (env : DbEnv) (c : RevCache) (item : ClipEntry) : RevCache × List DbOp :=
  let docId := docIdOf item
  let cachedRev := cachedRevOf env c docId
  match env.putResult docId cachedRev with
  | PutResult.ok rev => (cacheSet c docId rev, [DbOp.putDoc docId cachedRev])
  | PutResult.err =>
    if env.removeThrows docId then
      (c, [DbOp.putDoc docId cachedRev, DbOp.removeDoc docId])
    else
      match env.putResult docId none with
      | PutResult.ok rev =>
        (cacheSet c docId rev,
         [DbOp.putDoc docId cachedRev, DbOp.removeDoc docId, DbOp.putDoc docId none])
      | PutResult.err =>
        (c, [DbOp.putDoc docId cachedRev, DbOp.removeDoc docId, DbOp.putDoc docId none])

/-- The `list.forEach` upsert loop. -/
def putAll (env : DbEnv) : List ClipEntry → RevCache → RevCache × List DbOp
  | [], c => (c, [])
  | item :: rest, c =>
    let r1 := putOne env c item
    let r2 := putAll env rest r1.1
    (r2.1, r1.2 ++ r2.2)

/-- Function `persistItemsToLocalDb` (part_003 lines 1065-1117, identical to
`persistItems` in part_002 lines 207-255): seed the revision cache from the
existing documents, remove the stale ones, then upsert the target list.
Returns the final revision cache and the trace of store calls. -/
def persistItemsToLocalDb (env : DbEnv) (c0 : RevCache) (list : List ClipEntry) :
    RevCache × List DbOp :=
  let c1 := seedCache env.existingDocs c0
  let targets := list.map docIdOf
  let r1 := removeStale targets env.existingDocs c1
  let r2 := putAll env list r1.1
  (r2.1, r1.2 ++ r2.2)

theorem removeStale_cache_or (targets : List String) :
    ∀ (ds : List DbDocMeta) (c : RevCache) (k : String),
      (removeStale targets ds c).1 k = c k ∨ (removeStale targets ds c).1 k = none := by
  intro ds
  induction ds with
  | nil => intro c k; left; rfl
  | cons d ds ih =>
    intro c k
    simp only [removeStale]
    split
    · exact ih c k
    · rcases ih (cacheDel c d.docId) k with h | h
      · by_cases hk : k = d.docId
        · right
          rw [h]
          simp [cacheDel, hk]
        · left
          rw [h]
          simp [cacheDel, hk]
      · right
        exact h

theorem removeStale_spec (targets : List String) (d : DbDocMeta)
    (ht : d.docId ∉ targets) :
    ∀ (ds : List DbDocMeta) (c : RevCache), d ∈ ds →
      DbOp.removeDoc d.docId ∈ (removeStale targets ds c).2
      ∧ (removeStale targets ds c).1 d.docId = none := by
  intro ds
  induction ds with
  | nil => intro c h; cases h
  | cons a as ih =>
    intro c hd
    rcases List.mem_cons.mp hd with rfl | hd'
    · simp only [removeStale, if_neg ht]
      refine ⟨List.mem_cons_self _ _, ?_⟩
      rcases removeStale_cache_or targets as (cacheDel c d.docId) d.docId with h | h
      · rw [h]
        simp [cacheDel]
      · exact h
    · simp only [removeStale]
      split
      · exact ih c hd'
      · have h := ih (cacheDel c a.docId) hd'
        exact ⟨List.mem_cons_of_mem _ h.1, h.2⟩

theorem putOne_cache_other (env : DbEnv) (c : RevCache) (item : ClipEntry)
    (k : String) (hk : k ≠ docIdOf item) :
    (putOne env c item).1 k = c k := by
  simp only [putOne]
  split
  · simp [cacheSet, hk]
  · split
    · rfl
    · split
      · simp [cacheSet, hk]
      · rfl

theorem putAll_cache_not_target (env : DbEnv) (k : String) :
    ∀ (list : List ClipEntry) (c : RevCache), k ∉ list.map docIdOf →
      (putAll env list c).1 k = c k := by
  intro list
  induction list with
  | nil => intro c _; rfl
  | cons item rest ih =>
    intro c hk
    simp only [List.map_cons] at hk
    have hk1 : k ≠ docIdOf item := fun h => hk (h ▸ List.mem_cons_self _ _)
    have hk2 : k ∉ rest.map docIdOf := fun h => hk (List.mem_cons_of_mem _ h)
    simp only [putAll]
    rw [ih (putOne env c item).1 hk2, putOne_cache_other env c item k hk1]

/-- C8 — during a document-store save: a rejected put is followed by a
remove of that document and exactly one rev-less retry (whose success is
cached); a successful put stores the returned revision in the id→revision
cache; and removing a document absent from the target set deletes its cache
entry, which no later step of the same save restores. -/
theorem persist_conflict_retry_C8 :
    (∀ (env : DbEnv) (c : RevCache) (item : ClipEntry),
      env.putResult (docIdOf item) (cachedRevOf env c (docIdOf item)) = PutResult.err →
      env.removeThrows (docIdOf item) = false →
      (putOne env c item).2
        = [DbOp.putDoc (docIdOf item) (cachedRevOf env c (docIdOf item)),
           DbOp.removeDoc (docIdOf item), DbOp.putDoc (docIdOf item) none]
      ∧ (∀ rev : String, env.putResult (docIdOf item) none = PutResult.ok rev →
          (putOne env c item).1 (docIdOf item) = some rev))
    ∧ (∀ (env : DbEnv) (c : RevCache) (item : ClipEntry) (rev : String),
        env.putResult (docIdOf item) (cachedRevOf env c (docIdOf item)) = PutResult.ok rev →
        (putOne env c item).1 (docIdOf item) = some rev
        ∧ (putOne env c item).2
            = [DbOp.putDoc (docIdOf item) (cachedRevOf env c (docIdOf item))])
    ∧ (∀ (env : DbEnv) (c0 : RevCache) (list : List ClipEntry) (d : DbDocMeta),
        d ∈ env.existingDocs → d.docId ∉ list.map docIdOf →
        DbOp.removeDoc d.docId ∈ (persistItemsToLocalDb env c0 list).2
        ∧ (persistItemsToLocalDb env c0 list).1 d.docId = none) := by
  refine ⟨?_, ?_, ?_⟩
  · intro env c item herr hnothrow
    constructor
    · simp only [putOne, herr, hnothrow, Bool.false_eq_true, if_false]
      split <;> rfl
    · intro rev hretry
      simp only [putOne, herr, hnothrow, hretry]
      simp [cacheSet]
  · intro env c item rev hok
    simp only [putOne, hok]
    exact ⟨by simp [cacheSet], trivial⟩
  · intro env c0 list d hd ht
    have h1 := removeStale_spec (list.map docIdOf) d ht env.existingDocs
      (seedCache env.existingDocs c0) hd
    constructor
    · simp only [persistItemsToLocalDb]
      exact List.mem_append_left _ h1.1
    · simp only [persistItemsToLocalDb]
      rw [putAll_cache_not_target env d.docId list _ ht, h1.2]

/-- Concrete store oracle for the C8 witness: two existing documents, a
store that rejects every put carrying a revision and accepts rev-less puts
with revision `"r9"`, and a remove that never throws. -/
def dbEnvW : DbEnv :=
  { existingDocs := [⟨"clip:old", some "r1"⟩, ⟨"clip:a", some "r2"⟩]
    putResult := fun _ rev =>
      match rev with
      | some _ => PutResult.err
      | none => PutResult.ok "r9"
    removeThrows := fun _ => false }

/-- The single record saved in the C8 witness. -/
def itemW8 : ClipEntry := ⟨"a", ClipType.text, "T", 0, 0, false, false, none, none⟩

/-- Witness for C8: the conflicted put on `clip:a` is retried rev-less after
a remove, and the stale `clip:old` document is removed with its cache entry
gone from the final cache. -/
theorem persist_conflict_retry_C8_witness :
    (dbEnvW.putResult (docIdOf itemW8) (cachedRevOf dbEnvW (fun _ => none) (docIdOf itemW8))
        = PutResult.err
      ∧ dbEnvW.removeThrows (docIdOf itemW8) = false)
    ∧ (putOne dbEnvW (fun _ => none) itemW8).2
        = [DbOp.putDoc (docIdOf itemW8) (cachedRevOf dbEnvW (fun _ => none) (docIdOf itemW8)),
           DbOp.removeDoc (docIdOf itemW8), DbOp.putDoc (docIdOf itemW8) none]
    ∧ DbOp.removeDoc "clip:old" ∈ (persistItemsToLocalDb dbEnvW (fun _ => none) [itemW8]).2
    ∧ (persistItemsToLocalDb dbEnvW (fun _ => none) [itemW8]).1 "clip:old" = none := by
  have h1 := (persist_conflict_retry_C8.1 dbEnvW (fun _ => none) itemW8
    (by decide) (by decide)).1
  have h3 := persist_conflict_retry_C8.2.2 dbEnvW (fun _ => none) [itemW8]
    ⟨"clip:old", some "r1"⟩ (by decide) (by decide)
  exact ⟨⟨by decide, by decide⟩, h1, h3.1, h3.2⟩
